import Mathlib

set_option maxRecDepth 100000

set_option maxHeartbeats 4000000

/-!
Verification of the image-to-ASCII pipeline in src/main.py.

The Python source computes its arithmetic in IEEE-754 double precision.
To embed it faithfully we model one double rounding step exactly: round
to nearest with ties to even and a 53-bit significand, acting on
nonnegative rationals represented as numerator/denominator pairs of
natural numbers (every value the program manipulates is nonnegative;
overflow and subnormals are far outside the range the program uses and
are not modelled).  All source functions are then translated directly,
with Python ints as Nat/Int and every float operation as an exact
operation followed by one rounding step.
-/

namespace ImageToAscii

/-! ### Configuration constants (src/main.py lines 6-13) -/

def SUPPORTED_FORMATS : List String := [".png", ".jpg", ".jpeg"]

def MAX_SIZE : Nat := 200

def DENSITY_STRING : String := "Ñ@#W$9876543210?!abc;:+=-,. "

def SCALE_FACTOR : Nat := 10

def FONT_FAMILY : String := "Courier, monospace"

def OUTPUT_DIRECTORY : String := "output/"

/-! ### Exact model of IEEE-754 double-precision rounding -/

/-- A nonnegative rational value, as a raw numerator/denominator pair.
Used to model double-precision values and the exact intermediate results
that get rounded to them. -/
structure FQ where
  n : Nat
  d : Nat
deriving DecidableEq, Repr

/-- The rational value of a pair. -/
def FQ.val (p : FQ) : ℚ := (p.n : ℚ) / (p.d : ℚ)

/-- Fuel-driven base-2 logarithm, equal to Nat.log2 but defined by
structural recursion so that the kernel can evaluate it. -/
def nlog2Aux : Nat → Nat → Nat
  | 0, _ => 0
  | fuel + 1, n => if n < 2 then 0 else nlog2Aux fuel (n / 2) + 1

/-- Base-2 logarithm on Nat, kernel-evaluable. -/
def nlog2 (n : Nat) : Nat := nlog2Aux n n

/-- Decides whether 2 ^ e is at most the value of the pair p. -/
def FQ.twoPowLE (e : ℤ) (p : FQ) : Bool :=
  if 0 ≤ e then decide (p.d * 2 ^ e.toNat ≤ p.n) else decide (p.d ≤ p.n * 2 ^ (-e).toNat)

/-- The floor of the base-2 logarithm of the value of p (the binade of
the IEEE double nearest to it, for values in the normal range). -/
def FQ.exponent (p : FQ) : ℤ :=
  let e0 : ℤ := (nlog2 p.n : ℤ) - (nlog2 p.d : ℤ)
  if FQ.twoPowLE e0 p then e0 else e0 - 1

/-- Round the value of p to the nearest natural number, ties to even. -/
def FQ.rne (p : FQ) : Nat :=
  if 2 * (p.n % p.d) < p.d then p.n / p.d
  else if p.d < 2 * (p.n % p.d) then p.n / p.d + 1
  else if (p.n / p.d) % 2 = 0 then p.n / p.d else p.n / p.d + 1

/-- Scale p by 2 ^ (52 - e), so that for e the binade of p the result
lies in the significand range. -/
def FQ.scaled (p : FQ) (e : ℤ) : FQ :=
  if 0 ≤ 52 - e then ⟨p.n * 2 ^ (52 - e).toNat, p.d⟩
  else ⟨p.n, p.d * 2 ^ (e - 52).toNat⟩

/-- Reattach the binade: the pair with value m * 2 ^ (e - 52). -/
def FQ.unscale (m : ℕ) (e : ℤ) : FQ :=
  if 0 ≤ e - 52 then ⟨m * 2 ^ (e - 52).toNat, 1⟩ else ⟨m, 2 ^ (52 - e).toNat⟩

/-- One IEEE-754 double-precision rounding step (round to nearest, ties
to even) on a nonnegative value. -/
def FQ.rnd (p : FQ) : FQ :=
  if p.n = 0 then ⟨0, 1⟩
  else FQ.unscale (FQ.rne (FQ.scaled p (FQ.exponent p))) (FQ.exponent p)

/-- Relative error bound of one rounding step. -/
def eps : ℚ := 1 / 2 ^ 53

/-! ### Python float operations (each one exact operation, then one rounding) -/

/-- Python true division of two nonnegative ints, producing a float. -/
def pydiv (a b : ℕ) : FQ := FQ.rnd ⟨a, b⟩

/-- Python multiplication of a float by a nonnegative int. -/
def pymul (p : FQ) (k : ℕ) : FQ := FQ.rnd ⟨p.n * k, p.d⟩

/-- Python addition of two nonnegative floats. -/
def pyadd (p q : FQ) : FQ := FQ.rnd ⟨p.n * q.d + q.n * p.d, p.d * q.d⟩

/-- Python int() truncation of a nonnegative float. -/
def pyint (p : FQ) : ℕ := p.n / p.d

/-! ### The pipeline functions of src/main.py -/

/-- src/main.py lines 76-81.  Converts a luminance value to, per the
docstring, the appropriate character of DENSITY_STRING; the body
actually returns the Python int len(DENSITY_STRING) - density_index - 1.
The float literal 0.5 and the expression luminance_data / 255
* (len(DENSITY_STRING) - 1) are evaluated in double precision. -/
def luminance_to_ascii_char (luminance_data : ℕ) : ℤ :=
  (DENSITY_STRING.length : ℤ)
    - (pyint (pyadd (pymul (pydiv luminance_data 255) (DENSITY_STRING.length - 1))
        (FQ.rnd ⟨1, 2⟩)) : ℤ) - 1

/-- src/main.py lines 48-53: the dimension arithmetic of resize_image.
scale_factor is the double max_size / longer side; each new dimension is
int(side * scale_factor). -/
def resize_dims (width height : ℕ) (max_size : ℕ) : ℕ × ℕ :=
  (pyint (pymul (if height < width then pydiv max_size width else pydiv max_size height) width),
   pyint (pymul (if height < width then pydiv max_size width else pydiv max_size height) height))

/-- An image as the pipeline sees it: dimensions and a row-major RGB
pixel buffer (the pillow Image collaborator). -/
structure PImage where
  width : ℕ
  height : ℕ
  pixels : List (ℕ × ℕ × ℕ)
deriving DecidableEq, Repr

/-- src/main.py lines 41-54: resize_image computes the new dimensions
and delegates resampling to the image collaborator. -/
def resize_image (image : PImage) (resample : PImage → ℕ × ℕ → PImage)
    (max_size : ℕ := MAX_SIZE) : PImage :=
  resample image (resize_dims image.width image.height max_size)

/-- src/main.py lines 57-61: get_pixel_data returns the flat RGB list. -/
def get_pixel_data (image : PImage) : List (ℕ × ℕ × ℕ) := image.pixels

/-- The per-pixel body of rgb_to_luminance (src/main.py line 70):
int(0.299 * r + 0.587 * g + 0.114 * b) in double precision.  The float
literals 0.299, 0.587, 0.114 denote the doubles nearest to those
decimals, i.e. one rounding of the exact ratios. -/
def luminance_formula (r g b : ℕ) : ℕ :=
  pyint (pyadd (pyadd (pymul (pydiv 299 1000) r) (pymul (pydiv 587 1000) g))
    (pymul (pydiv 114 1000) b))

/-- src/main.py lines 64-73. -/
def rgb_to_luminance (pixel_data : List (ℕ × ℕ × ℕ)) : List ℕ :=
  pixel_data.map (fun p => luminance_formula p.1 p.2.1 p.2.2)

/-- src/main.py line 31: file_name.lower().endswith(SUPPORTED_FORMATS) -
the lowercased name ends with one of the supported suffixes. -/
def file_name_supported (file_name : String) : Bool :=
  SUPPORTED_FORMATS.any (fun fmt => fmt.data.isSuffixOf (file_name.data.map Char.toLower))

/-- src/main.py lines 24-38: iterate over the directory listing in
order, loading every supported file and raising TypeError at the first
unsupported one. -/
def load_images_from_directory (load_image : String → PImage) :
    List String → Except String (List String × List PImage)
  | [] => Except.ok ([], [])
  | file_name :: rest =>
      if file_name_supported file_name then
        match load_images_from_directory load_image rest with
        | Except.ok (names, images) =>
            Except.ok (file_name :: names, load_image file_name :: images)
        | Except.error e => Except.error e
      else Except.error "This file type is not supported."

/-- One emitted SVG text element: position, content (the value returned
by luminance_to_ascii_char, a Python int), font size, family, fill. -/
structure TextPrimitive where
  x_position : ℕ
  y_position : ℕ
  character : ℤ
  font_size : ℕ
  font_family : String
  fill : String
deriving DecidableEq, Repr

/-- The produced SVG drawing: output path, canvas size, background
rectangle fill, and the text elements in emission order. -/
structure Drawing where
  file_name : String
  size : ℕ × ℕ
  background_fill : String
  texts : List TextPrimitive
deriving DecidableEq, Repr

/-- Map a fallible function over a list, failing if any element fails
(the shape of a Python loop that can raise). -/
def mapOption {α β : Type} (f : α → Option β) : List α → Option (List β)
  | [] => some []
  | a :: as =>
      match f a, mapOption f as with
      | some b, some bs => some (b :: bs)
      | _, _ => none

/-- The cell traversal of src/main.py lines 100-101: for y in
range(height), for x in range(width) - row-major order. -/
def gridCells (width height : ℕ) : List (ℕ × ℕ) :=
  (List.range height).flatMap (fun y => (List.range width).map (fun x => (x, y)))

/-- The body of the cell loop of create_svg (src/main.py lines
100-115): one centered white text element per cell, font size equal to
the uniform cell size max(scaled_width, scaled_height), reading the
luminance sample at flat index y * width + x (none models the
IndexError Python would raise on an out-of-range read). -/
def svgText (luminance_data : List ℕ) (width height : ℕ) (cell : ℕ × ℕ) :
    Option TextPrimitive :=
  match luminance_data.get? (cell.2 * width + cell.1) with
  | some v => some
      { x_position := cell.1 * max (SCALE_FACTOR * width) (SCALE_FACTOR * height)
          + max (SCALE_FACTOR * width) (SCALE_FACTOR * height) / 2
        y_position := cell.2 * max (SCALE_FACTOR * width) (SCALE_FACTOR * height)
          + max (SCALE_FACTOR * width) (SCALE_FACTOR * height) / 2
        character := luminance_to_ascii_char v
        font_size := max (SCALE_FACTOR * width) (SCALE_FACTOR * height)
        font_family := FONT_FAMILY
        fill := "white" }
  | none => none

/-- src/main.py lines 84-117: create_svg.  Returns none exactly when
the Python code would raise IndexError reading luminance_data. -/
def create_svg (luminance_data : List ℕ) (dimensions : ℕ × ℕ) (file_name : String) :
    Option Drawing :=
  match mapOption (svgText luminance_data dimensions.1 dimensions.2)
      (gridCells dimensions.1 dimensions.2) with
  | some texts => some
      { file_name := OUTPUT_DIRECTORY ++ file_name ++ ".svg"
        size := (SCALE_FACTOR * dimensions.1, SCALE_FACTOR * dimensions.2)
        background_fill := "black"
        texts := texts }
  | none => none

/-- The output loop of main (src/main.py lines 129-134), recording the
files written before any abort. -/
def write_loop : List (List ℕ) → List PImage → List String →
    List String × Except String Unit
  | [], _, _ => ([], Except.ok ())
  | lum :: lums, image :: images, file_name :: file_names =>
      match create_svg lum (image.width, image.height)
          (String.mk (file_name.data.takeWhile (fun c => c != '.'))) with
      | some dwg =>
          ((write_loop lums images file_names).1.cons dwg.file_name,
           (write_loop lums images file_names).2)
      | none => ([], Except.error "IndexError")
  | _ :: _, _, _ => ([], Except.error "IndexError")

/-- src/main.py lines 119-135: the orchestrator.  The image collaborator
operations (loading, resampling, contrast enhancement) are parameters.
Returns the list of output files written and the final outcome. -/
def main_run (listing : List String) (load_image : String → PImage)
    (resample : PImage → ℕ × ℕ → PImage) (enhance : PImage → PImage) :
    List String × Except String Unit :=
  match load_images_from_directory load_image listing with
  | Except.error e => ([], Except.error e)
  | Except.ok (file_names, original_images) =>
      write_loop
        (((original_images.map (fun image => resize_image image resample)).map enhance).map
          (fun image => rgb_to_luminance (get_pixel_data image)))
        ((original_images.map (fun image => resize_image image resample)).map enhance)
        file_names

/-! ### Lemmas about the rounding model -/

theorem nlog2Aux_eq (fuel n : Nat) (h : n ≤ fuel) : nlog2Aux fuel n = Nat.log2 n := by
  induction fuel generalizing n with
  | zero =>
      interval_cases n
      simp [nlog2Aux, Nat.log2]
  | succ fuel ih =>
      rw [nlog2Aux, Nat.log2]
      by_cases h2 : n < 2
      · simp [h2, Nat.not_le.mpr h2]
      · have hn2 : 2 ≤ n := Nat.not_lt.mp h2
        have hdiv : n / 2 ≤ fuel := by
          have : n / 2 < n := Nat.div_lt_self (by omega) (by omega)
          omega
        simp [h2, hn2, ih _ hdiv]

theorem nlog2_eq (n : Nat) : nlog2 n = Nat.log2 n := nlog2Aux_eq n n le_rfl

theorem nlog2_le (n : Nat) (hn : n ≠ 0) : 2 ^ nlog2 n ≤ n := by
  rw [nlog2_eq]
  exact (Nat.le_log2 hn).mp le_rfl

theorem lt_nlog2 (n : Nat) : n < 2 ^ (nlog2 n + 1) := by
  rw [nlog2_eq, Nat.log2_eq_log_two]
  rcases Nat.eq_zero_or_pos n with h | h
  · subst h; positivity
  · exact Nat.lt_pow_succ_log_self (by norm_num) n

theorem FQ.val_nonneg (p : FQ) : 0 ≤ p.val := by
  unfold FQ.val; positivity

theorem FQ.val_pos (p : FQ) (hn : 0 < p.n) (hd : 0 < p.d) : 0 < p.val := by
  unfold FQ.val
  have h1 : (0:ℚ) < (p.n : ℚ) := by exact_mod_cast hn
  have h2 : (0:ℚ) < (p.d : ℚ) := by exact_mod_cast hd
  positivity

theorem FQ.twoPowLE_iff (e : ℤ) (p : FQ) (hd : 0 < p.d) :
    FQ.twoPowLE e p = true ↔ (2:ℚ) ^ e ≤ p.val := by
  have hdq : (0:ℚ) < (p.d : ℚ) := by exact_mod_cast hd
  unfold FQ.twoPowLE FQ.val
  by_cases he : 0 ≤ e
  · simp only [he, if_pos, decide_eq_true_eq]
    rw [le_div_iff hdq]
    have : (2:ℚ) ^ e = ((2 ^ e.toNat : ℕ) : ℚ) := by
      push_cast
      rw [← zpow_natCast (2:ℚ) e.toNat, Int.toNat_of_nonneg he]
    rw [this]
    rw [mul_comm ((2 ^ e.toNat : ℕ) : ℚ) _]
    exact_mod_cast Iff.rfl
  · simp only [he, if_neg, if_false, decide_eq_true_eq]
    have he' : 0 ≤ -e := by omega
    have h2 : (2:ℚ) ^ e = 1 / ((2 ^ (-e).toNat : ℕ) : ℚ) := by
      push_cast
      rw [← zpow_natCast (2:ℚ) (-e).toNat, Int.toNat_of_nonneg he', one_div, ← zpow_neg,
        neg_neg]
    rw [h2]
    have hpow : (0:ℚ) < ((2 ^ (-e).toNat : ℕ) : ℚ) := by positivity
    rw [div_le_div_iff hpow hdq, one_mul]
    exact_mod_cast Iff.rfl

theorem zpow_two_natCast (k : ℕ) : (2:ℚ) ^ (k : ℤ) = ((2 ^ k : ℕ) : ℚ) := by
  push_cast
  exact zpow_natCast 2 k

theorem FQ.exponent_spec (p : FQ) (hn : 0 < p.n) (hd : 0 < p.d) :
    (2:ℚ) ^ p.exponent ≤ p.val ∧ p.val < (2:ℚ) ^ (p.exponent + 1) := by
  have hdq : (0:ℚ) < (p.d : ℚ) := by exact_mod_cast hd
  have h1 : 2 ^ nlog2 p.n ≤ p.n := nlog2_le _ (by omega)
  have h2 : p.n < 2 ^ (nlog2 p.n + 1) := lt_nlog2 _
  have h3 : 2 ^ nlog2 p.d ≤ p.d := nlog2_le _ (by omega)
  have h4 : p.d < 2 ^ (nlog2 p.d + 1) := lt_nlog2 _
  set La : ℕ := nlog2 p.n with hLa
  set Lb : ℕ := nlog2 p.d with hLb
  have hlow : (2:ℚ) ^ ((La:ℤ) - (Lb:ℤ) - 1) ≤ p.val := by
    have heq : (2:ℚ) ^ ((La:ℤ) - (Lb:ℤ) - 1)
        = ((2 ^ La : ℕ) : ℚ) / ((2 ^ (Lb + 1) : ℕ) : ℚ) := by
      rw [← zpow_two_natCast La, ← zpow_two_natCast (Lb + 1),
        ← zpow_sub₀ (by norm_num : (2:ℚ) ≠ 0)]
      congr 1
      push_cast
      ring
    rw [heq]
    unfold FQ.val
    have ha : ((2 ^ La : ℕ) : ℚ) ≤ (p.n : ℚ) := by exact_mod_cast h1
    have hb : (p.d : ℚ) ≤ ((2 ^ (Lb + 1) : ℕ) : ℚ) := by exact_mod_cast (le_of_lt h4)
    exact div_le_div (by positivity) ha hdq hb
  have hhigh : p.val < (2:ℚ) ^ ((La:ℤ) - (Lb:ℤ) + 1) := by
    have heq : (2:ℚ) ^ ((La:ℤ) - (Lb:ℤ) + 1)
        = ((2 ^ (La + 1) : ℕ) : ℚ) / ((2 ^ Lb : ℕ) : ℚ) := by
      rw [← zpow_two_natCast (La + 1), ← zpow_two_natCast Lb,
        ← zpow_sub₀ (by norm_num : (2:ℚ) ≠ 0)]
      congr 1
      push_cast
      ring
    rw [heq]
    unfold FQ.val
    have ha : (p.n : ℚ) < ((2 ^ (La + 1) : ℕ) : ℚ) := by exact_mod_cast h2
    have hb : ((2 ^ Lb : ℕ) : ℚ) ≤ (p.d : ℚ) := by exact_mod_cast h3
    exact div_lt_div ha hb (by positivity) (by positivity)
  have hx : p.exponent = if FQ.twoPowLE ((La:ℤ) - (Lb:ℤ)) p = true
      then ((La:ℤ) - (Lb:ℤ)) else ((La:ℤ) - (Lb:ℤ)) - 1 := rfl
  rw [hx]
  split_ifs with hbr
  · exact ⟨(FQ.twoPowLE_iff _ p hd).mp hbr, hhigh⟩
  · have hlt : p.val < (2:ℚ) ^ ((La:ℤ) - (Lb:ℤ)) := by
      by_contra hcon
      exact hbr ((FQ.twoPowLE_iff _ p hd).mpr (le_of_not_lt hcon))
    refine ⟨hlow, ?_⟩
    have harith : (La:ℤ) - (Lb:ℤ) - 1 + 1 = (La:ℤ) - (Lb:ℤ) := by ring
    rw [harith]
    exact hlt

theorem FQ.val_mk (a b : ℕ) : (FQ.mk a b).val = (a:ℚ) / (b:ℚ) := rfl

theorem FQ.rne_bounds (p : FQ) (hd : 0 < p.d) :
    p.val - 1/2 ≤ (FQ.rne p : ℚ) ∧ (FQ.rne p : ℚ) ≤ p.val + 1/2 := by
  have hdq : (0:ℚ) < (p.d : ℚ) := by exact_mod_cast hd
  have hmod : p.n % p.d < p.d := Nat.mod_lt _ hd
  have hdm : (p.d : ℚ) * ((p.n / p.d : ℕ) : ℚ) + ((p.n % p.d : ℕ) : ℚ) = (p.n : ℚ) := by
    exact_mod_cast congrArg (Nat.cast : ℕ → ℚ) (Nat.div_add_mod p.n p.d)
  have hval : p.val = ((p.n / p.d : ℕ) : ℚ) + ((p.n % p.d : ℕ) : ℚ) / (p.d : ℚ) := by
    unfold FQ.val
    field_simp
    linarith
  have hfrac0 : (0:ℚ) ≤ ((p.n % p.d : ℕ) : ℚ) / (p.d : ℚ) := by positivity
  unfold FQ.rne
  split_ifs with hc1 hc2 hc3
  · have hle : ((p.n % p.d : ℕ) : ℚ) / (p.d : ℚ) ≤ 1/2 := by
      rw [div_le_div_iff hdq (by norm_num : (0:ℚ) < 2)]
      have h2 : 2 * (p.n % p.d) ≤ p.d := le_of_lt hc1
      have h2q : ((2 * (p.n % p.d) : ℕ) : ℚ) ≤ (p.d : ℚ) := by exact_mod_cast h2
      push_cast at h2q
      linarith
    exact ⟨by rw [hval]; linarith, by rw [hval]; linarith⟩
  · have hge : 1/2 ≤ ((p.n % p.d : ℕ) : ℚ) / (p.d : ℚ) := by
      rw [div_le_div_iff (by norm_num : (0:ℚ) < 2) hdq]
      have h2 : p.d ≤ 2 * (p.n % p.d) := le_of_lt hc2
      have h2q : (p.d : ℚ) ≤ ((2 * (p.n % p.d) : ℕ) : ℚ) := by exact_mod_cast h2
      push_cast at h2q
      linarith
    have hlt : ((p.n % p.d : ℕ) : ℚ) / (p.d : ℚ) < 1 := by
      rw [div_lt_one hdq]
      exact_mod_cast hmod
    exact ⟨by rw [hval]; push_cast; linarith, by rw [hval]; push_cast; linarith⟩
  · have heq : 2 * (p.n % p.d) = p.d := by omega
    have htie : ((p.n % p.d : ℕ) : ℚ) / (p.d : ℚ) = 1/2 := by
      rw [div_eq_div_iff (ne_of_gt hdq) (by norm_num : (2:ℚ) ≠ 0)]
      have h2q : ((2 * (p.n % p.d) : ℕ) : ℚ) = (p.d : ℚ) := by exact_mod_cast heq
      push_cast at h2q
      linarith
    exact ⟨by rw [hval]; linarith, by rw [hval]; linarith⟩
  · have heq : 2 * (p.n % p.d) = p.d := by omega
    have htie : ((p.n % p.d : ℕ) : ℚ) / (p.d : ℚ) = 1/2 := by
      rw [div_eq_div_iff (ne_of_gt hdq) (by norm_num : (2:ℚ) ≠ 0)]
      have h2q : ((2 * (p.n % p.d) : ℕ) : ℚ) = (p.d : ℚ) := by exact_mod_cast heq
      push_cast at h2q
      linarith
    exact ⟨by rw [hval]; push_cast; linarith, by rw [hval]; push_cast; linarith⟩

theorem two_zpow_mul (a b : ℤ) : (2:ℚ) ^ a * (2:ℚ) ^ b = (2:ℚ) ^ (a + b) :=
  (zpow_add₀ (by norm_num : (2:ℚ) ≠ 0) a b).symm

theorem FQ.scaled_d_pos (p : FQ) (e : ℤ) (hd : 0 < p.d) : 0 < (FQ.scaled p e).d := by
  unfold FQ.scaled
  split_ifs
  · exact hd
  · exact Nat.mul_pos hd (by positivity)

theorem FQ.scaled_val (p : FQ) (e : ℤ) : (FQ.scaled p e).val = p.val * (2:ℚ) ^ (52 - e) := by
  unfold FQ.scaled
  split_ifs with hc
  · have hzp : (2:ℚ) ^ ((52:ℤ) - e) = (2:ℚ) ^ ((52 - e).toNat : ℕ) := by
      rw [← zpow_natCast (2:ℚ) (52 - e).toNat, Int.toNat_of_nonneg hc]
    rw [FQ.val_mk]
    unfold FQ.val
    rw [hzp]
    push_cast
    ring
  · have hc' : (0:ℤ) ≤ e - 52 := by omega
    have hzp : (2:ℚ) ^ ((52:ℤ) - e) = ((2:ℚ) ^ ((e - 52).toNat : ℕ))⁻¹ := by
      rw [← zpow_natCast (2:ℚ) (e - 52).toNat, Int.toNat_of_nonneg hc', ← zpow_neg]
      congr 1
      ring
    rw [FQ.val_mk]
    unfold FQ.val
    rw [hzp]
    push_cast
    rw [div_eq_mul_inv, div_eq_mul_inv, mul_inv]
    ring

theorem FQ.unscale_d_pos (m : ℕ) (e : ℤ) : 0 < (FQ.unscale m e).d := by
  unfold FQ.unscale
  split_ifs
  · norm_num
  · positivity

theorem FQ.unscale_val (m : ℕ) (e : ℤ) : (FQ.unscale m e).val = (m : ℚ) * (2:ℚ) ^ (e - 52) := by
  unfold FQ.unscale
  split_ifs with hc
  · have hzp : (2:ℚ) ^ (e - (52:ℤ)) = (2:ℚ) ^ ((e - 52).toNat : ℕ) := by
      rw [← zpow_natCast (2:ℚ) (e - 52).toNat, Int.toNat_of_nonneg hc]
    rw [FQ.val_mk, hzp]
    push_cast
    ring
  · have hc' : (0:ℤ) ≤ 52 - e := by omega
    have hzp : (2:ℚ) ^ (e - (52:ℤ)) = ((2:ℚ) ^ ((52 - e).toNat : ℕ))⁻¹ := by
      rw [← zpow_natCast (2:ℚ) (52 - e).toNat, Int.toNat_of_nonneg hc', ← zpow_neg]
      congr 1
      ring
    rw [FQ.val_mk, hzp]
    push_cast
    rw [div_eq_mul_inv]

theorem FQ.rnd_d_pos (p : FQ) : 0 < (FQ.rnd p).d := by
  unfold FQ.rnd
  split_ifs
  · norm_num
  · exact FQ.unscale_d_pos _ _

theorem FQ.rnd_bounds (p : FQ) (hd : 0 < p.d) :
    p.val - p.val * eps ≤ (FQ.rnd p).val ∧ (FQ.rnd p).val ≤ p.val + p.val * eps := by
  by_cases h0 : p.n = 0
  · have hv : p.val = 0 := by
      unfold FQ.val
      rw [h0]
      norm_num
    have hr : FQ.rnd p = ⟨0, 1⟩ := by
      unfold FQ.rnd
      rw [if_pos h0]
    rw [hr, hv]
    norm_num [FQ.val_mk]
  · have hn : 0 < p.n := Nat.pos_of_ne_zero h0
    obtain ⟨he1, he2⟩ := FQ.exponent_spec p hn hd
    set e : ℤ := p.exponent with hedef
    have hyd : 0 < (FQ.scaled p e).d := FQ.scaled_d_pos p e hd
    obtain ⟨hm1, hm2⟩ := FQ.rne_bounds (FQ.scaled p e) hyd
    rw [FQ.scaled_val] at hm1 hm2
    set m : ℕ := FQ.rne (FQ.scaled p e) with hmdef
    have hrval : (FQ.rnd p).val = (m : ℚ) * (2:ℚ) ^ (e - 52) := by
      have hr : FQ.rnd p = FQ.unscale m e := by
        rw [FQ.rnd, if_neg h0]
      rw [hr, FQ.unscale_val]
    have hp2 : (0:ℚ) < (2:ℚ) ^ (e - 52) := zpow_pos (by norm_num) _
    have hcancel : (2:ℚ) ^ (52 - e) * (2:ℚ) ^ (e - 52) = 1 := by
      rw [two_zpow_mul]
      norm_num
    have hhalf : (1:ℚ)/2 * (2:ℚ) ^ (e - 52) ≤ p.val * eps := by
      have heps : (1:ℚ)/2 * (2:ℚ) ^ (e - 52) = (2:ℚ) ^ e * ((2:ℚ) ^ (-53 : ℤ)) := by
        have h12 : (1:ℚ)/2 = (2:ℚ) ^ (-1 : ℤ) := by norm_num
        rw [h12, two_zpow_mul, two_zpow_mul]
        congr 1
        ring
      have hepsval : (2:ℚ) ^ (-53 : ℤ) = eps := by
        unfold eps
        rw [zpow_neg, show ((53:ℤ)) = ((53:ℕ):ℤ) by norm_num, zpow_natCast]
        norm_num
      rw [heps, hepsval]
      apply mul_le_mul_of_nonneg_right he1
      unfold eps
      norm_num
    constructor
    · rw [hrval]
      have hmul : (p.val * (2:ℚ) ^ (52 - e) - 1/2) * (2:ℚ) ^ (e - 52)
          ≤ (m : ℚ) * (2:ℚ) ^ (e - 52) :=
        mul_le_mul_of_nonneg_right hm1 (le_of_lt hp2)
      have hexp : (p.val * (2:ℚ) ^ (52 - e) - 1/2) * (2:ℚ) ^ (e - 52)
          = p.val - 1/2 * (2:ℚ) ^ (e - 52) := by
        rw [sub_mul, mul_assoc, hcancel, mul_one]
      rw [hexp] at hmul
      linarith
    · rw [hrval]
      have hmul : (m : ℚ) * (2:ℚ) ^ (e - 52)
          ≤ (p.val * (2:ℚ) ^ (52 - e) + 1/2) * (2:ℚ) ^ (e - 52) :=
        mul_le_mul_of_nonneg_right hm2 (le_of_lt hp2)
      have hexp : (p.val * (2:ℚ) ^ (52 - e) + 1/2) * (2:ℚ) ^ (e - 52)
          = p.val + 1/2 * (2:ℚ) ^ (e - 52) := by
        rw [add_mul, mul_assoc, hcancel, mul_one]
      rw [hexp] at hmul
      linarith

/-! ### Lemmas about the Python float operations -/

theorem FQ.val_scaleNat (p : FQ) (k : ℕ) : (FQ.mk (p.n * k) p.d).val = p.val * k := by
  rw [FQ.val_mk]
  unfold FQ.val
  push_cast
  ring

theorem FQ.val_addRaw (p q : FQ) (hp : 0 < p.d) (hq : 0 < q.d) :
    (FQ.mk (p.n * q.d + q.n * p.d) (p.d * q.d)).val = p.val + q.val := by
  have hpq : ((p.d : ℚ)) ≠ 0 := by positivity
  have hqq : ((q.d : ℚ)) ≠ 0 := by positivity
  rw [FQ.val_mk]
  unfold FQ.val
  push_cast
  field_simp

theorem pydiv_d_pos (a b : ℕ) : 0 < (pydiv a b).d := FQ.rnd_d_pos _

theorem pymul_d_pos (p : FQ) (k : ℕ) : 0 < (pymul p k).d := FQ.rnd_d_pos _

theorem pyadd_d_pos (p q : FQ) : 0 < (pyadd p q).d := FQ.rnd_d_pos _

theorem pyint_le (p : FQ) (hd : 0 < p.d) : (pyint p : ℚ) ≤ p.val := by
  have hdq : (0:ℚ) < (p.d : ℚ) := by exact_mod_cast hd
  unfold pyint FQ.val
  rw [le_div_iff hdq]
  exact_mod_cast Nat.div_mul_le_self p.n p.d

theorem lt_pyint_succ (p : FQ) (hd : 0 < p.d) : p.val < (pyint p : ℚ) + 1 := by
  have hdq : (0:ℚ) < (p.d : ℚ) := by exact_mod_cast hd
  unfold pyint FQ.val
  rw [div_lt_iff hdq]
  have h1q : (p.d:ℚ) * ((p.n / p.d : ℕ) : ℚ) + ((p.n % p.d : ℕ) : ℚ) = (p.n : ℚ) := by
    exact_mod_cast congrArg (Nat.cast : ℕ → ℚ) (Nat.div_add_mod p.n p.d)
  have h2q : ((p.n % p.d : ℕ) : ℚ) < (p.d : ℚ) := by exact_mod_cast Nat.mod_lt p.n hd
  linarith

theorem eps_nonneg : 0 ≤ eps := by unfold eps; norm_num

/-! ### The Brightness Mapper (claims C1, C5, C6) -/

/-- On inputs 0..255 the double-precision computation of src/main.py
line 80 agrees with the exact round-half-up index, and the function
returns the integer position 27 - index. -/
theorem ascii_char_eq_exact :
    ∀ v : ℕ, v < 256 →
      luminance_to_ascii_char v = 27 - (((54 * v + 255) / 510 : ℕ) : ℤ) := by decide

theorem DENSITY_STRING_length : DENSITY_STRING.length = 28 := by decide


/-- C1: the spec says luminance_to_ascii_char returns the glyph
character scale[L - 1 - index] with index = round-half-up(v / 255
* (L - 1)).  The code computes that index correctly but returns the
integer position L - 1 - index itself, not the character at that
position, contradicting its own docstring and str annotation. -/
theorem brightness_mapper_returns_index (v : ℕ) (hv : v < 256) :
    luminance_to_ascii_char v
      = (DENSITY_STRING.length : ℤ) - (((54 * v + 255) / 510 : ℕ) : ℤ) - 1 := by
  rw [ascii_char_eq_exact v hv, DENSITY_STRING_length]
  ring

theorem brightness_mapper_returns_index_witness :
    (0 : ℕ) < 256 ∧ luminance_to_ascii_char 0
      = (DENSITY_STRING.length : ℤ) - (((54 * 0 + 255) / 510 : ℕ) : ℤ) - 1 :=
  ⟨by norm_num, brightness_mapper_returns_index 0 (by norm_num)⟩

/-- C5: the Brightness Mapper is antitone - for luminance values
v1 < v2 in [0,255], the density-scale position chosen for v1 (which is
exactly the integer the code returns) is at least the position chosen
for v2. -/
theorem brightness_mapper_antitone (v1 v2 : ℕ) (h1 : v1 ≤ 255) (h2 : v2 ≤ 255)
    (hlt : v1 < v2) :
    luminance_to_ascii_char v2 ≤ luminance_to_ascii_char v1 := by
  rw [ascii_char_eq_exact v1 (by omega), ascii_char_eq_exact v2 (by omega)]
  have hdiv : (54 * v1 + 255) / 510 ≤ (54 * v2 + 255) / 510 :=
    Nat.div_le_div_right (by omega)
  omega

theorem brightness_mapper_antitone_witness :
    (0 : ℕ) ≤ 255 ∧ (255 : ℕ) ≤ 255 ∧ (0 : ℕ) < 255 ∧
      luminance_to_ascii_char 255 ≤ luminance_to_ascii_char 0 :=
  ⟨by norm_num, by norm_num, by norm_num,
    brightness_mapper_antitone 0 255 (by norm_num) (by norm_num) (by norm_num)⟩

/-- C6: at the boundaries the code selects the correct scale positions
(L - 1 for v = 0 and 0 for v = 255) but returns those integer
positions, not the characters scale[L - 1] and scale[0] that the spec
and the docstring of the function promise. -/
theorem brightness_mapper_boundary_positions :
    luminance_to_ascii_char 0 = (DENSITY_STRING.length : ℤ) - 1 ∧
      luminance_to_ascii_char 255 = 0 := by
  refine ⟨?_, ?_⟩
  · rw [ascii_char_eq_exact 0 (by norm_num), DENSITY_STRING_length]
    norm_num
  · rw [ascii_char_eq_exact 255 (by norm_num)]
    norm_num


/-! ### The Aspect-Preserving Resizer (claims C2, C3, C10) -/

/-- Bounds for one resized side: n is the side being scaled, L the
longer side, M the bound.  The double-precision result pyint (pymul
(pydiv M L) n) is within one of the exactly scaled n * M / L, is at
most M, is positive when the exact scaled value is at least 2, and for
the longer side itself lands on M or M - 1. -/
theorem resize_side_bounds (n L M : ℕ) (hL : 0 < L) (hn : n ≤ L) (hM : 0 < M)
    (hM2 : M ≤ 2 ^ 50) :
    (n * M / L ≤ pyint (pymul (pydiv M L) n) + 1) ∧
    (pyint (pymul (pydiv M L) n) ≤ n * M / L + 1) ∧
    (pyint (pymul (pydiv M L) n) ≤ M) ∧
    (2 * L ≤ M * n → 1 ≤ pyint (pymul (pydiv M L) n)) ∧
    (n = L → pyint (pymul (pydiv M L) n) = M ∨ pyint (pymul (pydiv M L) n) = M - 1) := by
  have hLq : (0:ℚ) < (L:ℚ) := by exact_mod_cast hL
  have hMq : (0:ℚ) < (M:ℚ) := by exact_mod_cast hM
  have hM2q : (M:ℚ) ≤ 2 ^ 50 := by exact_mod_cast hM2
  have hnq : (n:ℚ) ≤ (L:ℚ) := by exact_mod_cast hn
  have hn0 : (0:ℚ) ≤ (n:ℚ) := by positivity
  have hSM : (n:ℚ) * ((M:ℚ) / (L:ℚ)) ≤ (M:ℚ) := by
    rw [show (n:ℚ) * ((M:ℚ) / (L:ℚ)) = (n:ℚ) * (M:ℚ) / (L:ℚ) by ring, div_le_iff hLq]
    nlinarith
  have hsd : 0 < (pydiv M L).d := pydiv_d_pos M L
  obtain ⟨hs1, hs2⟩ := FQ.rnd_bounds ⟨M, L⟩ hL
  rw [FQ.val_mk] at hs1 hs2
  have hA0 : 0 ≤ (pydiv M L).val := FQ.val_nonneg _
  obtain ⟨hx1, hx2⟩ := FQ.rnd_bounds ⟨(pydiv M L).n * n, (pydiv M L).d⟩ hsd
  have hxeq : pymul (pydiv M L) n = FQ.rnd ⟨(pydiv M L).n * n, (pydiv M L).d⟩ := rfl
  rw [FQ.val_scaleNat, ← hxeq] at hx1 hx2
  have hxd : 0 < (pymul (pydiv M L) n).d := pymul_d_pos _ _
  have hB0 : 0 ≤ (pymul (pydiv M L) n).val := FQ.val_nonneg _
  -- accumulated error bounds
  have h1 : (pydiv M L).val * n ≤ ((M:ℚ)/(L:ℚ) + (M:ℚ)/(L:ℚ) * eps) * n :=
    mul_le_mul_of_nonneg_right hs2 hn0
  have h1l : ((M:ℚ)/(L:ℚ) - (M:ℚ)/(L:ℚ) * eps) * n ≤ (pydiv M L).val * n :=
    mul_le_mul_of_nonneg_right hs1 hn0
  have h2 : (pydiv M L).val * n * eps ≤ ((M:ℚ)/(L:ℚ) + (M:ℚ)/(L:ℚ) * eps) * n * eps :=
    mul_le_mul_of_nonneg_right h1 eps_nonneg
  have h2l : 0 ≤ (pydiv M L).val * n * eps :=
    mul_nonneg (mul_nonneg hA0 hn0) eps_nonneg
  have h3 : (n:ℚ) * ((M:ℚ)/(L:ℚ)) * (2*eps + eps*eps) ≤ 1/2 := by
    have h30 : (n:ℚ) * ((M:ℚ)/(L:ℚ)) ≤ (2:ℚ) ^ 50 := le_trans hSM hM2q
    have h31 : (0:ℚ) ≤ 2*eps + eps*eps := by unfold eps; norm_num
    have h32 := mul_le_mul_of_nonneg_right h30 h31
    have h33 : (2:ℚ) ^ 50 * (2*eps + eps*eps) ≤ 1/2 := by unfold eps; norm_num
    linarith
  have hS0 : 0 ≤ (n:ℚ) * ((M:ℚ)/(L:ℚ)) := by positivity
  have hB_hi : (pymul (pydiv M L) n).val ≤ (n:ℚ) * ((M:ℚ)/(L:ℚ)) + 1/2 := by
    ring_nf at hx2 h1 h2 h3 ⊢
    linarith
  have hB_lo : (n:ℚ) * ((M:ℚ)/(L:ℚ)) - 1/2 ≤ (pymul (pydiv M L) n).val := by
    ring_nf at hx1 h1l h2 h3 ⊢
    linarith
  have hv_le : ((pyint (pymul (pydiv M L) n) : ℕ) : ℚ) ≤ (pymul (pydiv M L) n).val :=
    pyint_le _ hxd
  have hv_gt : (pymul (pydiv M L) n).val < ((pyint (pymul (pydiv M L) n) : ℕ) : ℚ) + 1 :=
    lt_pyint_succ _ hxd
  -- relate the exact scaled value to the Nat division n * M / L
  have hD1 : ((n * M / L : ℕ) : ℚ) ≤ (n:ℚ) * ((M:ℚ)/(L:ℚ)) := by
    rw [show (n:ℚ) * ((M:ℚ)/(L:ℚ)) = ((n:ℚ) * (M:ℚ)) / (L:ℚ) by ring, le_div_iff hLq]
    exact_mod_cast Nat.div_mul_le_self (n * M) L
  have hD2 : (n:ℚ) * ((M:ℚ)/(L:ℚ)) < ((n * M / L : ℕ) : ℚ) + 1 := by
    rw [show (n:ℚ) * ((M:ℚ)/(L:ℚ)) = ((n:ℚ) * (M:ℚ)) / (L:ℚ) by ring, div_lt_iff hLq]
    have hNat : n * M < (n * M / L + 1) * L := (Nat.div_lt_iff_lt_mul hL).mp (Nat.lt_succ_self _)
    calc ((n:ℚ) * (M:ℚ)) = ((n * M : ℕ) : ℚ) := by push_cast; ring
      _ < ((n * M / L + 1 : ℕ) : ℚ) * (L:ℚ) := by exact_mod_cast hNat
      _ = (((n * M / L : ℕ) : ℚ) + 1) * (L:ℚ) := by push_cast; ring
  refine ⟨?_, ?_, ?_, ?_, ?_⟩
  · -- n * M / L ≤ v + 1
    have hq : ((n * M / L : ℕ) : ℚ) < ((pyint (pymul (pydiv M L) n) : ℕ) : ℚ) + 2 := by
      linarith
    have : (n * M / L : ℕ) < pyint (pymul (pydiv M L) n) + 2 := by exact_mod_cast hq
    omega
  · -- v ≤ n * M / L + 1
    have hq : ((pyint (pymul (pydiv M L) n) : ℕ) : ℚ) < ((n * M / L : ℕ) : ℚ) + 2 := by
      linarith
    have : pyint (pymul (pydiv M L) n) < (n * M / L : ℕ) + 2 := by exact_mod_cast hq
    omega
  · -- v ≤ M
    have hq : ((pyint (pymul (pydiv M L) n) : ℕ) : ℚ) < (M:ℚ) + 1 := by linarith
    have : pyint (pymul (pydiv M L) n) < M + 1 := by exact_mod_cast hq
    omega
  · -- positivity of the scaled side when the exact value is at least 2
    intro h2L
    have h2Lq : (2:ℚ) * (L:ℚ) ≤ (M:ℚ) * (n:ℚ) := by exact_mod_cast h2L
    have hS2 : (2:ℚ) ≤ (n:ℚ) * ((M:ℚ)/(L:ℚ)) := by
      rw [show (n:ℚ) * ((M:ℚ)/(L:ℚ)) = ((n:ℚ) * (M:ℚ)) / (L:ℚ) by ring, le_div_iff hLq]
      nlinarith
    have hq : (0:ℚ) < ((pyint (pymul (pydiv M L) n) : ℕ) : ℚ) := by linarith
    exact_mod_cast hq
  · -- the longer side lands on M or M - 1
    intro hnL
    subst hnL
    have hSeq : (n:ℚ) * ((M:ℚ)/(n:ℚ)) = (M:ℚ) := by
      field_simp
    rw [hSeq] at hB_hi hB_lo
    have hle : pyint (pymul (pydiv M n) n) ≤ M := by
      have hq : ((pyint (pymul (pydiv M n) n) : ℕ) : ℚ) < (M:ℚ) + 1 := by linarith
      have : pyint (pymul (pydiv M n) n) < M + 1 := by exact_mod_cast hq
      omega
    have hge : M ≤ pyint (pymul (pydiv M n) n) + 1 := by
      have hq : (M:ℚ) < ((pyint (pymul (pydiv M n) n) : ℕ) : ℚ) + 2 := by linarith
      have : M < pyint (pymul (pydiv M n) n) + 2 := by exact_mod_cast hq
      omega
    omega


/-- C2 counterexample: for a 97-wide, 1-high image with bound 200 the
code computes dimensions (199, 2) - the longer side does not map
exactly to M = 200, because 97 * (200 / 97) rounds below 200 in double
precision and int() truncates to 199. -/
theorem resize_dims_max_counterexample :
    resize_dims 97 1 200 = (199, 2) ∧
      max (resize_dims 97 1 200).1 (resize_dims 97 1 200).2 ≠ 200 := by decide

/-- C2 (amended): for positive dimensions and a positive bound
M ≤ 2 ^ 50, each output side is at most M; the longer original side
maps to M or to M - 1 (exactly M in exact arithmetic, possibly M - 1
after double rounding), so max(w1, h1) is M or M - 1; the shorter side
is within one of the exactly scaled floor(side * M / longer); and a
width = height tie yields equal output sides (the code then uses
M / height, the same ratio as M / width). -/
theorem resize_dims_bounds (w h M : ℕ) (hw : 0 < w) (hh : 0 < h) (hM : 0 < M)
    (hM2 : M ≤ 2 ^ 50) :
    (resize_dims w h M).1 ≤ M ∧
    (resize_dims w h M).2 ≤ M ∧
    M ≤ max (resize_dims w h M).1 (resize_dims w h M).2 + 1 ∧
    (h < w → ((resize_dims w h M).1 = M ∨ (resize_dims w h M).1 = M - 1) ∧
      h * M / w ≤ (resize_dims w h M).2 + 1 ∧ (resize_dims w h M).2 ≤ h * M / w + 1) ∧
    (w ≤ h → ((resize_dims w h M).2 = M ∨ (resize_dims w h M).2 = M - 1) ∧
      w * M / h ≤ (resize_dims w h M).1 + 1 ∧ (resize_dims w h M).1 ≤ w * M / h + 1) ∧
    (w = h → (resize_dims w h M).1 = (resize_dims w h M).2) := by
  by_cases hcase : h < w
  · have hr : resize_dims w h M
        = (pyint (pymul (pydiv M w) w), pyint (pymul (pydiv M w) h)) := by
      simp [resize_dims, hcase]
    obtain ⟨b1a, b1b, b1c, b1d, b1e⟩ := resize_side_bounds w w M hw le_rfl hM hM2
    obtain ⟨b2a, b2b, b2c, b2d, b2e⟩ := resize_side_bounds h w M hw (le_of_lt hcase) hM hM2
    have hlong := b1e rfl
    rw [hr]
    simp only []
    have hmaxl : pyint (pymul (pydiv M w) w)
        ≤ max (pyint (pymul (pydiv M w) w)) (pyint (pymul (pydiv M w) h)) :=
      Nat.le_max_left _ _
    refine ⟨b1c, b2c, by omega, fun _ => ⟨hlong, b2a, b2b⟩, fun hwh => absurd hwh (by omega),
      fun hwh => absurd hwh (by omega)⟩
  · have hle : w ≤ h := Nat.le_of_not_lt hcase
    have hr : resize_dims w h M
        = (pyint (pymul (pydiv M h) w), pyint (pymul (pydiv M h) h)) := by
      simp [resize_dims, hcase]
    obtain ⟨b1a, b1b, b1c, b1d, b1e⟩ := resize_side_bounds w h M hh hle hM hM2
    obtain ⟨b2a, b2b, b2c, b2d, b2e⟩ := resize_side_bounds h h M hh le_rfl hM hM2
    have hlong := b2e rfl
    rw [hr]
    simp only []
    have hmaxr : pyint (pymul (pydiv M h) h)
        ≤ max (pyint (pymul (pydiv M h) w)) (pyint (pymul (pydiv M h) h)) :=
      Nat.le_max_right _ _
    refine ⟨b1c, b2c, by omega, fun hwh => absurd hwh (by omega),
      fun _ => ⟨hlong, b1a, b1b⟩, fun hwh => ?_⟩
    subst hwh
    rfl

theorem resize_dims_bounds_witness :
    (0:ℕ) < 3 ∧ (0:ℕ) < 2 ∧ (0:ℕ) < 200 ∧ (200:ℕ) ≤ 2 ^ 50 ∧
      (resize_dims 3 2 200).1 ≤ 200 ∧ (resize_dims 3 2 200).2 ≤ 200 ∧
      200 ≤ max (resize_dims 3 2 200).1 (resize_dims 3 2 200).2 + 1 :=
  ⟨by norm_num, by norm_num, by norm_num, by norm_num,
    (resize_dims_bounds 3 2 200 (by norm_num) (by norm_num) (by norm_num) (by norm_num)).1,
    (resize_dims_bounds 3 2 200 (by norm_num) (by norm_num) (by norm_num) (by norm_num)).2.1,
    (resize_dims_bounds 3 2 200 (by norm_num) (by norm_num) (by norm_num) (by norm_num)).2.2.1⟩

/-- C3 counterexample: resize_image does not leave a 2 by 1 image
unchanged with bound 200. -/
theorem resize_dims_2x1_not_unchanged : resize_dims 2 1 200 ≠ (2, 1) := by decide

/-- C3 (amended): for a 2 by 1 input image with maximum size 200,
resize_image scales the dimensions to 200 by 100: the code has no
early exit for images already inside the bound and always maps the
longer side to max_size, upscaling here. -/
theorem resize_dims_2x1 : resize_dims 2 1 200 = (200, 100) := by decide

/-- C10 counterexample: a 1 by 1000 input image (both sides at least 1)
resizes to width 0 with bound 200, violating the width at least 1
invariant the spec states for every Image. -/
theorem resize_dims_zero_width : (resize_dims 1 1000 200).1 = 0 := by decide

/-- C10 (amended): with max size 200, the resized dimensions stay at
least 1 provided the aspect ratio is bounded: 2 * longer side at most
200 * shorter side.  Without that margin the shorter output side can
be 0 (already at 1 by 1000, and at 49 by 9800 even though the exact
scaled value 49 * 200 / 9800 = 1 is nonzero, double rounding gives 0). -/
theorem resize_dims_positive (w h : ℕ) (hw : 0 < w) (hh : 0 < h)
    (haspect : 2 * max w h ≤ 200 * min w h) :
    0 < (resize_dims w h 200).1 ∧ 0 < (resize_dims w h 200).2 := by
  by_cases hcase : h < w
  · have hr : resize_dims w h 200
        = (pyint (pymul (pydiv 200 w) w), pyint (pymul (pydiv 200 w) h)) := by
      simp [resize_dims, hcase]
    obtain ⟨_, _, _, _, b1e⟩ := resize_side_bounds w w 200 hw le_rfl (by norm_num) (by norm_num)
    obtain ⟨_, _, _, b2d, _⟩ :=
      resize_side_bounds h w 200 hw (le_of_lt hcase) (by norm_num) (by norm_num)
    have hmx : max w h = w := Nat.max_eq_left (le_of_lt hcase)
    have hmn : min w h = h := Nat.min_eq_right (le_of_lt hcase)
    rw [hmx, hmn] at haspect
    have hlong := b1e rfl
    have hshort := b2d haspect
    rw [hr]
    exact ⟨by omega, hshort⟩
  · have hle : w ≤ h := Nat.le_of_not_lt hcase
    have hr : resize_dims w h 200
        = (pyint (pymul (pydiv 200 h) w), pyint (pymul (pydiv 200 h) h)) := by
      simp [resize_dims, hcase]
    obtain ⟨_, _, _, b1d, _⟩ := resize_side_bounds w h 200 hh hle (by norm_num) (by norm_num)
    obtain ⟨_, _, _, _, b2e⟩ := resize_side_bounds h h 200 hh le_rfl (by norm_num) (by norm_num)
    have hmx : max w h = h := Nat.max_eq_right hle
    have hmn : min w h = w := Nat.min_eq_left hle
    rw [hmx, hmn] at haspect
    have hlong := b2e rfl
    have hshort := b1d haspect
    rw [hr]
    exact ⟨hshort, by omega⟩

theorem resize_dims_positive_witness :
    (0:ℕ) < 5 ∧ (0:ℕ) < 5 ∧ 2 * max 5 5 ≤ 200 * min 5 5 ∧
      0 < (resize_dims 5 5 200).1 ∧ 0 < (resize_dims 5 5 200).2 :=
  ⟨by norm_num, by norm_num, by norm_num,
    (resize_dims_positive 5 5 (by norm_num) (by norm_num) (by norm_num)).1,
    (resize_dims_positive 5 5 (by norm_num) (by norm_num) (by norm_num)).2⟩


/-! ### The Luminance Extractor (claim C7) -/

/-- Bounds for one weighted channel 0.299 * r etc.: the double result
is within 512 ulp-bounds of the exact (a / 1000) * k and at most 256. -/
theorem pymul_lit_bounds (a k : ℕ) (ha : a ≤ 1000) (hk : k ≤ 255) :
    ((a:ℚ)/1000) * k - 512 * eps ≤ (pymul (pydiv a 1000) k).val ∧
    (pymul (pydiv a 1000) k).val ≤ ((a:ℚ)/1000) * k + 512 * eps ∧
    (pymul (pydiv a 1000) k).val ≤ 256 := by
  have haq : (a:ℚ) ≤ 1000 := by exact_mod_cast ha
  have hkq : (k:ℚ) ≤ 255 := by exact_mod_cast hk
  have hk0 : (0:ℚ) ≤ (k:ℚ) := by positivity
  have hw1 : (a:ℚ)/1000 ≤ 1 := (div_le_one (by norm_num : (0:ℚ) < 1000)).mpr haq
  have hw0 : (0:ℚ) ≤ (a:ℚ)/1000 := by positivity
  obtain ⟨hcl, hch⟩ := FQ.rnd_bounds ⟨a, 1000⟩ (by norm_num : 0 < (1000:ℕ))
  have hpd : pydiv a 1000 = FQ.rnd ⟨a, 1000⟩ := rfl
  rw [← hpd] at hcl hch
  have hvmk : FQ.val ⟨a, 1000⟩ = (a:ℚ)/1000 := by
    rw [FQ.val_mk]
    norm_num
  rw [hvmk] at hcl hch
  have hweps : (a:ℚ)/1000 * eps ≤ 1 * eps := mul_le_mul_of_nonneg_right hw1 eps_nonneg
  have hch2 : (pydiv a 1000).val ≤ (a:ℚ)/1000 + eps := by linarith
  have hcl2 : (a:ℚ)/1000 - eps ≤ (pydiv a 1000).val := by linarith
  have hcv0 : 0 ≤ (pydiv a 1000).val := FQ.val_nonneg _
  obtain ⟨htl, hth⟩ := FQ.rnd_bounds ⟨(pydiv a 1000).n * k, (pydiv a 1000).d⟩ (pydiv_d_pos a 1000)
  rw [FQ.val_scaleNat] at htl hth
  have hpm : pymul (pydiv a 1000) k = FQ.rnd ⟨(pydiv a 1000).n * k, (pydiv a 1000).d⟩ := rfl
  rw [← hpm] at htl hth
  have hepsk : eps * (k:ℚ) ≤ eps * 255 := mul_le_mul_of_nonneg_left hkq eps_nonneg
  have hrawh : (pydiv a 1000).val * k ≤ ((a:ℚ)/1000) * k + 255 * eps := by
    have h1 : (pydiv a 1000).val * k ≤ ((a:ℚ)/1000 + eps) * k :=
      mul_le_mul_of_nonneg_right hch2 hk0
    ring_nf at h1 hepsk ⊢
    linarith
  have hrawl : ((a:ℚ)/1000) * k - 255 * eps ≤ (pydiv a 1000).val * k := by
    have h1 : ((a:ℚ)/1000 - eps) * k ≤ (pydiv a 1000).val * k :=
      mul_le_mul_of_nonneg_right hcl2 hk0
    ring_nf at h1 hepsk ⊢
    linarith
  have hwk : ((a:ℚ)/1000) * k ≤ 255 := by
    have := mul_le_mul hw1 hkq hk0 (by norm_num : (0:ℚ) ≤ 1)
    linarith
  have hraw256 : (pydiv a 1000).val * k ≤ 256 := by
    have : (255:ℚ) * eps ≤ 1 := by norm_num [eps]
    linarith
  have hraw0 : 0 ≤ (pydiv a 1000).val * k := mul_nonneg hcv0 hk0
  have herr : (pydiv a 1000).val * k * eps ≤ 256 * eps :=
    mul_le_mul_of_nonneg_right hraw256 eps_nonneg
  have herr0 : 0 ≤ (pydiv a 1000).val * k * eps := mul_nonneg hraw0 eps_nonneg
  have heps1 : (511:ℚ) * eps ≤ 1 := by norm_num [eps]
  exact ⟨by linarith, by linarith, by linarith⟩

/-- Pointwise correctness of the double-precision luminance formula:
the result is within one below the exact floor(0.299 r + 0.587 g
+ 0.114 b) and lies in [0, 255]. -/
theorem luminance_formula_bounds (r g b : ℕ) (hr : r ≤ 255) (hg : g ≤ 255) (hb : b ≤ 255) :
    luminance_formula r g b ≤ 255 ∧
    luminance_formula r g b ≤ (299 * r + 587 * g + 114 * b) / 1000 ∧
    (299 * r + 587 * g + 114 * b) / 1000 ≤ luminance_formula r g b + 1 := by
  have hrq : (r:ℚ) ≤ 255 := by exact_mod_cast hr
  have hgq : (g:ℚ) ≤ 255 := by exact_mod_cast hg
  have hbq : (b:ℚ) ≤ 255 := by exact_mod_cast hb
  have hr0 : (0:ℚ) ≤ (r:ℚ) := by positivity
  have hg0 : (0:ℚ) ≤ (g:ℚ) := by positivity
  have hb0 : (0:ℚ) ≤ (b:ℚ) := by positivity
  obtain ⟨h1l, h1h, h1b⟩ := pymul_lit_bounds 299 r (by norm_num) hr
  obtain ⟨h2l, h2h, h2b⟩ := pymul_lit_bounds 587 g (by norm_num) hg
  obtain ⟨h3l, h3h, h3b⟩ := pymul_lit_bounds 114 b (by norm_num) hb
  have ht10 : 0 ≤ (pymul (pydiv 299 1000) r).val := FQ.val_nonneg _
  have ht20 : 0 ≤ (pymul (pydiv 587 1000) g).val := FQ.val_nonneg _
  have ht30 : 0 ≤ (pymul (pydiv 114 1000) b).val := FQ.val_nonneg _
  have hd1 : 0 < (pymul (pydiv 299 1000) r).d := pymul_d_pos _ _
  have hd2 : 0 < (pymul (pydiv 587 1000) g).d := pymul_d_pos _ _
  have hd3 : 0 < (pymul (pydiv 114 1000) b).d := pymul_d_pos _ _
  -- first addition
  obtain ⟨hsl, hsh⟩ := FQ.rnd_bounds
    ⟨(pymul (pydiv 299 1000) r).n * (pymul (pydiv 587 1000) g).d
      + (pymul (pydiv 587 1000) g).n * (pymul (pydiv 299 1000) r).d,
     (pymul (pydiv 299 1000) r).d * (pymul (pydiv 587 1000) g).d⟩ (Nat.mul_pos hd1 hd2)
  rw [FQ.val_addRaw _ _ hd1 hd2] at hsl hsh
  have hps : pyadd (pymul (pydiv 299 1000) r) (pymul (pydiv 587 1000) g)
      = FQ.rnd ⟨(pymul (pydiv 299 1000) r).n * (pymul (pydiv 587 1000) g).d
          + (pymul (pydiv 587 1000) g).n * (pymul (pydiv 299 1000) r).d,
        (pymul (pydiv 299 1000) r).d * (pymul (pydiv 587 1000) g).d⟩ := rfl
  rw [← hps] at hsl hsh
  have hsum512 : (pymul (pydiv 299 1000) r).val + (pymul (pydiv 587 1000) g).val ≤ 512 := by
    linarith
  have hsum0 : 0 ≤ (pymul (pydiv 299 1000) r).val + (pymul (pydiv 587 1000) g).val := by
    linarith
  have hserr : ((pymul (pydiv 299 1000) r).val + (pymul (pydiv 587 1000) g).val) * eps
      ≤ 512 * eps := mul_le_mul_of_nonneg_right hsum512 eps_nonneg
  have hserr0 : 0 ≤ ((pymul (pydiv 299 1000) r).val + (pymul (pydiv 587 1000) g).val) * eps :=
    mul_nonneg hsum0 eps_nonneg
  have hs12_hi : (pyadd (pymul (pydiv 299 1000) r) (pymul (pydiv 587 1000) g)).val
      ≤ (299:ℚ)/1000 * r + (587:ℚ)/1000 * g + 1536 * eps := by linarith
  have hs12_lo : (299:ℚ)/1000 * r + (587:ℚ)/1000 * g - 1536 * eps
      ≤ (pyadd (pymul (pydiv 299 1000) r) (pymul (pydiv 587 1000) g)).val := by linarith
  have hs12d : 0 < (pyadd (pymul (pydiv 299 1000) r) (pymul (pydiv 587 1000) g)).d :=
    pyadd_d_pos _ _
  have hs120 : 0 ≤ (pyadd (pymul (pydiv 299 1000) r) (pymul (pydiv 587 1000) g)).val :=
    FQ.val_nonneg _
  -- second addition
  obtain ⟨hal, hah⟩ := FQ.rnd_bounds
    ⟨(pyadd (pymul (pydiv 299 1000) r) (pymul (pydiv 587 1000) g)).n
        * (pymul (pydiv 114 1000) b).d
      + (pymul (pydiv 114 1000) b).n
        * (pyadd (pymul (pydiv 299 1000) r) (pymul (pydiv 587 1000) g)).d,
     (pyadd (pymul (pydiv 299 1000) r) (pymul (pydiv 587 1000) g)).d
        * (pymul (pydiv 114 1000) b).d⟩ (Nat.mul_pos hs12d hd3)
  rw [FQ.val_addRaw _ _ hs12d hd3] at hal hah
  have hpa : pyadd (pyadd (pymul (pydiv 299 1000) r) (pymul (pydiv 587 1000) g))
        (pymul (pydiv 114 1000) b)
      = FQ.rnd ⟨(pyadd (pymul (pydiv 299 1000) r) (pymul (pydiv 587 1000) g)).n
            * (pymul (pydiv 114 1000) b).d
          + (pymul (pydiv 114 1000) b).n
            * (pyadd (pymul (pydiv 299 1000) r) (pymul (pydiv 587 1000) g)).d,
        (pyadd (pymul (pydiv 299 1000) r) (pymul (pydiv 587 1000) g)).d
            * (pymul (pydiv 114 1000) b).d⟩ := rfl
  rw [← hpa] at hal hah
  have heps2 : (1536:ℚ) * eps ≤ 1 := by norm_num [eps]
  have hsum1024 : (pyadd (pymul (pydiv 299 1000) r) (pymul (pydiv 587 1000) g)).val
      + (pymul (pydiv 114 1000) b).val ≤ 1024 := by
    have : (299:ℚ)/1000 * r ≤ 255 := by
      have := mul_le_mul (show (299:ℚ)/1000 ≤ 1 by norm_num) hrq hr0 (by norm_num : (0:ℚ) ≤ 1)
      linarith
    have : (587:ℚ)/1000 * g ≤ 255 := by
      have := mul_le_mul (show (587:ℚ)/1000 ≤ 1 by norm_num) hgq hg0 (by norm_num : (0:ℚ) ≤ 1)
      linarith
    linarith [hs12_hi, h3b]
  have hsum1024_0 : 0 ≤ (pyadd (pymul (pydiv 299 1000) r) (pymul (pydiv 587 1000) g)).val
      + (pymul (pydiv 114 1000) b).val := by linarith
  have haerr : ((pyadd (pymul (pydiv 299 1000) r) (pymul (pydiv 587 1000) g)).val
      + (pymul (pydiv 114 1000) b).val) * eps ≤ 1024 * eps :=
    mul_le_mul_of_nonneg_right hsum1024 eps_nonneg
  have haerr0 : 0 ≤ ((pyadd (pymul (pydiv 299 1000) r) (pymul (pydiv 587 1000) g)).val
      + (pymul (pydiv 114 1000) b).val) * eps := mul_nonneg hsum1024_0 eps_nonneg
  have ha_hi : (pyadd (pyadd (pymul (pydiv 299 1000) r) (pymul (pydiv 587 1000) g))
        (pymul (pydiv 114 1000) b)).val
      ≤ (299:ℚ)/1000 * r + (587:ℚ)/1000 * g + (114:ℚ)/1000 * b + 3072 * eps := by linarith
  have ha_lo : (299:ℚ)/1000 * r + (587:ℚ)/1000 * g + (114:ℚ)/1000 * b - 3072 * eps
      ≤ (pyadd (pyadd (pymul (pydiv 299 1000) r) (pymul (pydiv 587 1000) g))
        (pymul (pydiv 114 1000) b)).val := by linarith
  -- compare against the exact floor
  have hE : (299:ℚ)/1000 * r + (587:ℚ)/1000 * g + (114:ℚ)/1000 * b
      = ((299 * r + 587 * g + 114 * b : ℕ) : ℚ) / 1000 := by
    push_cast
    ring
  rw [hE] at ha_hi ha_lo
  have hfl1 : (((299 * r + 587 * g + 114 * b) / 1000 : ℕ) : ℚ)
      ≤ ((299 * r + 587 * g + 114 * b : ℕ) : ℚ) / 1000 := by
    rw [le_div_iff (by norm_num : (0:ℚ) < 1000)]
    exact_mod_cast Nat.div_mul_le_self (299 * r + 587 * g + 114 * b) 1000
  have hfl2 : ((299 * r + 587 * g + 114 * b : ℕ) : ℚ) / 1000
      < (((299 * r + 587 * g + 114 * b) / 1000 : ℕ) : ℚ) + 1 := by
    rw [div_lt_iff (by norm_num : (0:ℚ) < 1000)]
    have hNat : 299 * r + 587 * g + 114 * b
        < ((299 * r + 587 * g + 114 * b) / 1000 + 1) * 1000 := by omega
    calc ((299 * r + 587 * g + 114 * b : ℕ) : ℚ)
        < (((299 * r + 587 * g + 114 * b) / 1000 + 1 : ℕ) : ℚ) * 1000 := by exact_mod_cast hNat
      _ = ((((299 * r + 587 * g + 114 * b) / 1000 : ℕ) : ℚ) + 1) * 1000 := by push_cast; ring
  have hfrac : ((299 * r + 587 * g + 114 * b : ℕ) : ℚ) / 1000
      ≤ (((299 * r + 587 * g + 114 * b) / 1000 : ℕ) : ℚ) + 999/1000 := by
    rw [div_le_iff (by norm_num : (0:ℚ) < 1000)]
    have hNat : 299 * r + 587 * g + 114 * b
        ≤ (299 * r + 587 * g + 114 * b) / 1000 * 1000 + 999 := by omega
    calc ((299 * r + 587 * g + 114 * b : ℕ) : ℚ)
        ≤ (((299 * r + 587 * g + 114 * b) / 1000 * 1000 + 999 : ℕ) : ℚ) := by exact_mod_cast hNat
      _ = ((((299 * r + 587 * g + 114 * b) / 1000 : ℕ) : ℚ) + 999/1000) * 1000 := by
          push_cast
          ring
  have hld : 0 < (pyadd (pyadd (pymul (pydiv 299 1000) r) (pymul (pydiv 587 1000) g))
      (pymul (pydiv 114 1000) b)).d := pyadd_d_pos _ _
  have hveq : luminance_formula r g b
      = pyint (pyadd (pyadd (pymul (pydiv 299 1000) r) (pymul (pydiv 587 1000) g))
          (pymul (pydiv 114 1000) b)) := rfl
  have hv1 := pyint_le _ hld
  have hv2 := lt_pyint_succ _ hld
  rw [← hveq] at hv1 hv2
  have heps3 : (3072:ℚ) * eps < 1/1000 := by norm_num [eps]
  have hDle : (299 * r + 587 * g + 114 * b) / 1000 ≤ 255 := by omega
  refine ⟨?_, ?_, ?_⟩
  · -- result at most 255, via result at most the exact floor
    have hq : ((luminance_formula r g b : ℕ) : ℚ)
        < (((299 * r + 587 * g + 114 * b) / 1000 : ℕ) : ℚ) + 1 := by linarith
    have : luminance_formula r g b < (299 * r + 587 * g + 114 * b) / 1000 + 1 := by
      exact_mod_cast hq
    omega
  · have hq : ((luminance_formula r g b : ℕ) : ℚ)
        < (((299 * r + 587 * g + 114 * b) / 1000 : ℕ) : ℚ) + 1 := by linarith
    have : luminance_formula r g b < (299 * r + 587 * g + 114 * b) / 1000 + 1 := by
      exact_mod_cast hq
    omega
  · have hq : (((299 * r + 587 * g + 114 * b) / 1000 : ℕ) : ℚ)
        < ((luminance_formula r g b : ℕ) : ℚ) + 2 := by linarith
    have : (299 * r + 587 * g + 114 * b) / 1000 < luminance_formula r g b + 2 := by
      exact_mod_cast hq
    omega


/-- C7 counterexample: at the pixel (1,1,1) the double-precision sum
0.299 + 0.587 + 0.114 lands just below 1.0, so the code yields 0 while
floor(0.299 R + 0.587 G + 0.114 B) = floor(1.0) = 1. -/
theorem rgb_to_luminance_off_by_one :
    rgb_to_luminance [(1, 1, 1)] = [0] ∧ (299 * 1 + 587 * 1 + 114 * 1) / 1000 = 1 := by
  refine ⟨by decide, by norm_num⟩

/-- C7 (amended): rgb_to_luminance returns a buffer of identical
length and order whose value at each position is the double-precision
evaluation of int(0.299 R + 0.587 G + 0.114 B); that value lies in
[0, 255] and is within one below the exact floor(0.299 R + 0.587 G
+ 0.114 B) (it equals the floor except at boundary pixels such as
(1,1,1) where double rounding loses 1). -/
theorem rgb_to_luminance_bounds (pixel_data : List (ℕ × ℕ × ℕ))
    (hrange : ∀ p ∈ pixel_data, p.1 ≤ 255 ∧ p.2.1 ≤ 255 ∧ p.2.2 ≤ 255) :
    (rgb_to_luminance pixel_data).length = pixel_data.length ∧
    ∀ i p, pixel_data.get? i = some p →
      (rgb_to_luminance pixel_data).get? i = some (luminance_formula p.1 p.2.1 p.2.2) ∧
      luminance_formula p.1 p.2.1 p.2.2 ≤ 255 ∧
      luminance_formula p.1 p.2.1 p.2.2 ≤ (299 * p.1 + 587 * p.2.1 + 114 * p.2.2) / 1000 ∧
      (299 * p.1 + 587 * p.2.1 + 114 * p.2.2) / 1000 ≤ luminance_formula p.1 p.2.1 p.2.2 + 1 := by
  constructor
  · unfold rgb_to_luminance
    exact List.length_map _ _
  · intro i p hip
    have hmem : p ∈ pixel_data := List.get?_mem hip
    obtain ⟨hr, hg, hb⟩ := hrange p hmem
    obtain ⟨b1, b2, b3⟩ := luminance_formula_bounds p.1 p.2.1 p.2.2 hr hg hb
    refine ⟨?_, b1, b2, b3⟩
    unfold rgb_to_luminance
    rw [List.get?_map, hip, Option.map_some']

theorem rgb_to_luminance_bounds_witness :
    (∀ p ∈ [((0:ℕ), (0:ℕ), (0:ℕ)), (255, 255, 255)],
      p.1 ≤ 255 ∧ p.2.1 ≤ 255 ∧ p.2.2 ≤ 255) ∧
    (rgb_to_luminance [((0:ℕ), (0:ℕ), (0:ℕ)), (255, 255, 255)]).length
      = [((0:ℕ), (0:ℕ), (0:ℕ)), (255, 255, 255)].length :=
  ⟨by decide, (rgb_to_luminance_bounds [(0, 0, 0), (255, 255, 255)] (by decide)).1⟩


/-! ### The Pipeline Orchestrator (claim C4) -/

/-- If any name in the directory listing is unsupported, loading raises
(TypeError in the source) regardless of how many valid names the
listing also contains. -/
theorem load_images_err (load_image : String → PImage) (listing : List String)
    (hbad : ∃ f ∈ listing, file_name_supported f = false) :
    load_images_from_directory load_image listing
      = Except.error "This file type is not supported." := by
  induction listing with
  | nil => simp at hbad
  | cons file_name rest ih =>
      obtain ⟨f, hf, hfu⟩ := hbad
      rw [load_images_from_directory]
      by_cases hsup : file_name_supported file_name
      · rw [if_pos hsup]
        have hfrest : f ∈ rest := by
          rcases List.mem_cons.mp hf with heq | hmem
          · subst heq
            rw [hfu] at hsup
            exact absurd hsup (by simp)
          · exact hmem
        rw [ih ⟨f, hfrest, hfu⟩]
      · rw [if_neg hsup]

/-- C4: if the input directory contains any file whose name does not
end (case-insensitively) in .png, .jpg or .jpeg, the whole batch fails
during loading: main raises before any create_svg call, so the set of
output files written is empty, no matter how many valid images the
directory also contains. -/
theorem unsupported_file_aborts_batch (listing : List String)
    (load_image : String → PImage) (resample : PImage → ℕ × ℕ → PImage)
    (enhance : PImage → PImage)
    (hbad : ∃ f ∈ listing, file_name_supported f = false) :
    main_run listing load_image resample enhance
      = ([], Except.error "This file type is not supported.") := by
  unfold main_run
  rw [load_images_err load_image listing hbad]

theorem unsupported_file_aborts_batch_witness :
    (∃ f ∈ ["photo.png", "notes.txt"], file_name_supported f = false) ∧
    main_run ["photo.png", "notes.txt"] (fun _ => ⟨1, 1, [(0, 0, 0)]⟩)
        (fun image _ => image) (fun image => image)
      = ([], Except.error "This file type is not supported.") :=
  ⟨⟨"notes.txt", by decide⟩,
    unsupported_file_aborts_batch ["photo.png", "notes.txt"] (fun _ => ⟨1, 1, [(0, 0, 0)]⟩)
      (fun image _ => image) (fun image => image) ⟨"notes.txt", by decide⟩⟩

/-! ### The Grid Renderer (claims C8, C9) -/

theorem mapOption_length {α β : Type} (f : α → Option β) (l : List α) (l2 : List β)
    (h : mapOption f l = some l2) : l2.length = l.length := by
  induction l generalizing l2 with
  | nil =>
      rw [mapOption] at h
      cases h
      rfl
  | cons a as ih =>
      rw [mapOption] at h
      cases hfa : f a with
      | none => rw [hfa] at h; cases h
      | some b =>
          rw [hfa] at h
          cases hrest : mapOption f as with
          | none => rw [hrest] at h; cases h
          | some bs =>
              rw [hrest] at h
              cases h
              simp [ih bs hrest]

theorem mapOption_eq_map {α β : Type} (f : α → Option β) (g : α → β) (l : List α)
    (h : ∀ a ∈ l, f a = some (g a)) : mapOption f l = some (l.map g) := by
  induction l with
  | nil => rfl
  | cons a as ih =>
      rw [mapOption, h a (List.mem_cons_self a as), ih (fun x hx => h x (List.mem_cons_of_mem a hx))]
      rfl

theorem gridCells_length (width height : ℕ) : (gridCells width height).length = height * width := by
  induction height with
  | zero => simp [gridCells]
  | succ h ih =>
      unfold gridCells at ih ⊢
      rw [List.range_succ, List.flatMap_append, List.length_append, ih]
      simp [Nat.succ_mul]

theorem gridCells_get (width height x y : ℕ) (hx : x < width) (hy : y < height) :
    (gridCells width height).get? (y * width + x) = some (x, y) := by
  induction height with
  | zero => omega
  | succ h ih =>
      unfold gridCells at ih ⊢
      rw [List.range_succ, List.flatMap_append]
      rcases Nat.lt_or_ge y h with hyh | hyh
      · rw [List.get?_append]
        · exact ih hyh
        · have hlen : ((List.range h).flatMap
              (fun y => (List.range width).map (fun x => (x, y)))).length = h * width := by
            have := gridCells_length width h
            unfold gridCells at this
            exact this
          rw [hlen]
          calc y * width + x < y * width + width := by omega
            _ = (y + 1) * width := by ring
            _ ≤ h * width := Nat.mul_le_mul_right width (by omega)
      · have hyeq : y = h := by omega
        subst hyeq
        have hlen : ((List.range y).flatMap
            (fun z => (List.range width).map (fun x => (x, z)))).length = y * width := by
          have := gridCells_length width y
          unfold gridCells at this
          exact this
        rw [List.get?_append_right (by rw [hlen]; omega)]
        rw [hlen]
        have hidx : y * width + x - y * width = x := by omega
        rw [hidx]
        simp only [List.flatMap_cons, List.flatMap_nil, List.append_nil]
        rw [List.get?_map, List.get?_range hx]
        rfl

theorem gridCells_mem (width height : ℕ) (cell : ℕ × ℕ) (h : cell ∈ gridCells width height) :
    cell.1 < width ∧ cell.2 < height := by
  unfold gridCells at h
  rw [List.mem_flatMap] at h
  obtain ⟨y, hy, hmem⟩ := h
  rw [List.mem_map] at hmem
  obtain ⟨x, hx, hcell⟩ := hmem
  rw [List.mem_range] at hy hx
  subst hcell
  exact ⟨hx, hy⟩


theorem svgText_some (l : List ℕ) (w h : ℕ) (cell : ℕ × ℕ)
    (hidx : cell.2 * w + cell.1 < l.length) :
    svgText l w h cell = some
      { x_position := cell.1 * max (SCALE_FACTOR * w) (SCALE_FACTOR * h)
          + max (SCALE_FACTOR * w) (SCALE_FACTOR * h) / 2
        y_position := cell.2 * max (SCALE_FACTOR * w) (SCALE_FACTOR * h)
          + max (SCALE_FACTOR * w) (SCALE_FACTOR * h) / 2
        character := luminance_to_ascii_char (l.getD (cell.2 * w + cell.1) 0)
        font_size := max (SCALE_FACTOR * w) (SCALE_FACTOR * h)
        font_family := FONT_FAMILY
        fill := "white" } := by
  unfold svgText
  cases hv : l.get? (cell.2 * w + cell.1) with
  | none => exact absurd (List.get?_eq_none.mp hv) (by omega)
  | some v =>
      have hg : l.getD (cell.2 * w + cell.1) 0 = v := by
        rw [List.getD_eq_get?, hv]
        rfl
      rw [hg]

theorem create_svg_eq (l : List ℕ) (w h : ℕ) (name : String) (hl : w * h ≤ l.length) :
    create_svg l (w, h) name = some
      { file_name := OUTPUT_DIRECTORY ++ name ++ ".svg"
        size := (SCALE_FACTOR * w, SCALE_FACTOR * h)
        background_fill := "black"
        texts := (gridCells w h).map (fun cell =>
          { x_position := cell.1 * max (SCALE_FACTOR * w) (SCALE_FACTOR * h)
              + max (SCALE_FACTOR * w) (SCALE_FACTOR * h) / 2
            y_position := cell.2 * max (SCALE_FACTOR * w) (SCALE_FACTOR * h)
              + max (SCALE_FACTOR * w) (SCALE_FACTOR * h) / 2
            character := luminance_to_ascii_char (l.getD (cell.2 * w + cell.1) 0)
            font_size := max (SCALE_FACTOR * w) (SCALE_FACTOR * h)
            font_family := FONT_FAMILY
            fill := "white" }) } := by
  have hall : ∀ cell ∈ gridCells w h,
      svgText l w h cell = some
        { x_position := cell.1 * max (SCALE_FACTOR * w) (SCALE_FACTOR * h)
            + max (SCALE_FACTOR * w) (SCALE_FACTOR * h) / 2
          y_position := cell.2 * max (SCALE_FACTOR * w) (SCALE_FACTOR * h)
            + max (SCALE_FACTOR * w) (SCALE_FACTOR * h) / 2
          character := luminance_to_ascii_char (l.getD (cell.2 * w + cell.1) 0)
          font_size := max (SCALE_FACTOR * w) (SCALE_FACTOR * h)
          font_family := FONT_FAMILY
          fill := "white" } := by
    intro cell hcell
    obtain ⟨hx, hy⟩ := gridCells_mem w h cell hcell
    apply svgText_some
    have hstep : cell.2 * w + cell.1 < h * w := by
      calc cell.2 * w + cell.1 < cell.2 * w + w := by omega
        _ = (cell.2 + 1) * w := by ring
        _ ≤ h * w := Nat.mul_le_mul_right w (by omega)
    calc cell.2 * w + cell.1 < h * w := hstep
      _ = w * h := Nat.mul_comm h w
      _ ≤ l.length := hl
  unfold create_svg
  dsimp only
  rw [mapOption_eq_map (svgText l w h) _ (gridCells w h) hall]

/-- C9: when the luminance buffer length equals width * height, the
drawing exists and contains exactly width * height text primitives,
one per grid cell. -/
theorem create_svg_text_count (l : List ℕ) (w h : ℕ) (name : String)
    (hl : l.length = w * h) :
    ∃ dwg, create_svg l (w, h) name = some dwg ∧ dwg.texts.length = w * h := by
  refine ⟨_, create_svg_eq l w h name (le_of_eq hl.symm), ?_⟩
  rw [List.length_map, gridCells_length]
  exact Nat.mul_comm h w

theorem create_svg_text_count_witness :
    ([0, 255, 7, 9] : List ℕ).length = 2 * 2 ∧
    ∃ dwg, create_svg [0, 255, 7, 9] (2, 2) "four" = some dwg ∧
      dwg.texts.length = 2 * 2 := by
  obtain ⟨dwg, h1, h2⟩ := create_svg_text_count [0, 255, 7, 9] 2 2 "four" (by decide)
  exact ⟨by decide, dwg, h1, h2⟩

/-- C8: the drawing produced by create_svg has canvas size
(SCALE_FACTOR * width, SCALE_FACTOR * height), a black background, a
single uniform cell size max(SCALE_FACTOR * width, SCALE_FACTOR
* height) used for every cell position and font size, and for each
cell (x, y) in row-major order one white text primitive centered at
(x * cell + cell / 2, y * cell + cell / 2) carrying the Brightness
Mapper output for the luminance sample at flat index y * width + x. -/
theorem create_svg_structure (l : List ℕ) (w h : ℕ) (name : String)
    (hl : l.length = w * h) :
    ∃ dwg, create_svg l (w, h) name = some dwg ∧
      dwg.size = (SCALE_FACTOR * w, SCALE_FACTOR * h) ∧
      dwg.background_fill = "black" ∧
      dwg.texts.length = w * h ∧
      ∀ x y, x < w → y < h →
        dwg.texts.get? (y * w + x) = some
          { x_position := x * max (SCALE_FACTOR * w) (SCALE_FACTOR * h)
              + max (SCALE_FACTOR * w) (SCALE_FACTOR * h) / 2
            y_position := y * max (SCALE_FACTOR * w) (SCALE_FACTOR * h)
              + max (SCALE_FACTOR * w) (SCALE_FACTOR * h) / 2
            character := luminance_to_ascii_char (l.getD (y * w + x) 0)
            font_size := max (SCALE_FACTOR * w) (SCALE_FACTOR * h)
            font_family := FONT_FAMILY
            fill := "white" } := by
  refine ⟨_, create_svg_eq l w h name (le_of_eq hl.symm), rfl, rfl, ?_, ?_⟩
  · rw [List.length_map, gridCells_length]
    exact Nat.mul_comm h w
  · intro x y hx hy
    rw [List.get?_map, gridCells_get w h x y hx hy]
    rfl

theorem create_svg_structure_witness :
    ([0, 255] : List ℕ).length = 2 * 1 ∧
    ∃ dwg, create_svg [0, 255] (2, 1) "img" = some dwg ∧
      dwg.size = (SCALE_FACTOR * 2, SCALE_FACTOR * 1) ∧
      dwg.background_fill = "black" ∧
      dwg.texts.length = 2 * 1 := by
  obtain ⟨dwg, h1, h2, h3, h4, h5⟩ := create_svg_structure [0, 255] 2 1 "img" (by decide)
  exact ⟨by decide, dwg, h1, h2, h3, h4⟩

end ImageToAscii
